import Mathlib

/-!
Shallow embedding of the RSA-accumulator core of the
`BTP_IoT_security_with_Blockchain` repository, together with proofs
settling the frozen claims C1-C10 about it.

Python `int` values are modelled as `Nat` where the code keeps them
non-negative and as `Int` where a caller may pass arbitrary integers.
`pow(a, b, m)` on non-negative arguments is `a ^ b % m`.
Functions that may `raise` return `Except PyErr _`.
-/

/-- Error raised by the Python code (`ValueError` / `NotImplementedError`),
carrying the (static part of the) message. -/
inductive PyErr where
  | valueError (msg : String)
  | notImplementedError (msg : String)
deriving DecidableEq

deriving instance DecidableEq for Except

/-- Result of a Python function that may raise. -/
abbrev PyResult (α : Type) := Except PyErr α

/-! ## src/accum/trapdoor_operations.py -/

/-- `extended_gcd` from `trapdoor_operations.py` (lines 15-40).
The Python function is called only with non-negative arguments
(`modular_inverse` reduces `a` modulo `m` first, and the recursion keeps
both arguments non-negative), so naturals model the inputs; the Bezout
coefficients are integers. -/
def extended_gcd (a b : Nat) : Nat × Int × Int :=
  if h : a = 0 then (b, 0, 1)
  else
    let r := extended_gcd (b % a) a
    (r.1, r.2.2 - ((b / a : Nat) : Int) * r.2.1, r.2.1)
termination_by a
decreasing_by exact Nat.mod_lt _ (Nat.pos_of_ne_zero h)

/-- `modular_inverse` from `trapdoor_operations.py` (lines 43-75).
Returns `none` when the inverse does not exist, raises on non-positive
inputs. -/
def modular_inverse (a m : Nat) : PyResult (Option Nat) :=
  if a = 0 ∨ m = 0 then .error (.valueError "Both a and m must be positive")
  else
    let a1 := a % m
    if a1 = 0 then .ok none
    else
      let r := extended_gcd a1 m
      if r.1 ≠ 1 then .ok none
      else .ok (some ((r.2.1 % (m : Int) + (m : Int)) % (m : Int)).toNat)

/-- `compute_lambda_n` from `trapdoor_operations.py` (lines 108-138):
Carmichael's `λ(N) = lcm(p-1, q-1)` computed as
`((p-1) / gcd(p-1, q-1)) * (q-1)`. -/
def compute_lambda_n (p q : Nat) : PyResult Nat :=
  if p ≤ 1 ∨ q ≤ 1 then .error (.valueError "Both p and q must be greater than 1")
  else if p = q then .error (.valueError "p and q must be distinct")
  else .ok (((p - 1) / Nat.gcd (p - 1) (q - 1)) * (q - 1))

/-- `trapdoor_remove_member` from `trapdoor_operations.py` (lines 141-208).
Computes `A^(prime⁻¹ mod λ(N)) mod N` after the validation performed by the
source, raising on each failed check with the static part of the Python
message. -/
def trapdoor_remove_member (A prime N p q : Nat) : PyResult Nat :=
  if A = 0 ∨ prime = 0 ∨ N = 0 ∨ p = 0 ∨ q = 0 then
    .error (.valueError "All parameters must be positive")
  else if p * q ≠ N then .error (.valueError "N must equal p * q")
  else if N ≤ prime then .error (.valueError "Prime must be less than N")
  else if ¬(1 ≤ A ∧ A < N) then .error (.valueError "Accumulator A must be in [1, N-1]")
  else if Nat.gcd A N ≠ 1 then
    .error (.valueError "Accumulator A must be coprime to N (in Z*_N)")
  else
    match compute_lambda_n p q with
    | .error e => .error e
    | .ok lambda_n =>
      match modular_inverse prime lambda_n with
      | .error e => .error e
      | .ok none =>
          .error (.valueError "Cannot compute modular inverse of prime mod lambda(N). gcd(prime, lambda(N)) != 1")
      | .ok (some d) => .ok (A ^ d % N)

/-! ## src/accum/accumulator.py -/

/-- `add_member` from `accumulator.py` (lines 17-45): `A^p mod N` after
positivity validation. -/
def add_member (A p N : Nat) : PyResult Nat :=
  if A = 0 ∨ p = 0 ∨ N = 0 then .error (.valueError "All parameters must be positive")
  else .ok (A ^ p % N)

/-- The `for p in prime_list` loop of `recompute_root` (`accumulator.py`
lines 86-90): folds `A := pow(A, p, N)`, raising if a prime is not
positive. -/
def recompute_loop (N : Nat) : List Nat → Nat → PyResult Nat
  | [], A => .ok A
  | p :: rest, A =>
      if p = 0 then .error (.valueError "All primes must be positive")
      else recompute_loop N rest (A ^ p % N)

/-- `recompute_root` from `accumulator.py` (lines 48-92). -/
def recompute_root (primes : List Nat) (N g : Nat) : PyResult Nat :=
  if N = 0 ∨ g = 0 then .error (.valueError "N and g must be positive")
  else if N ≤ g then .error (.valueError "Generator g must be less than modulus N")
  else if primes = [] then .ok g
  else recompute_loop N primes g

/-- `verify_membership` from `accumulator.py` (lines 143-170).
Inputs are arbitrary integers (the function is a guard for untrusted
data); `pow(w, p, N)` is only reached with `w, p, N ≥ 1`, where it equals
`w ^ p mod N`. -/
def verify_membership (w p A N : Int) : Bool :=
  if w ≤ 0 ∨ p ≤ 0 ∨ A ≤ 0 ∨ N ≤ 0 then false
  else if N ≤ w ∨ N ≤ A then false
  else w ^ p.toNat % N == A

/-! ## src/accum/witness_refresh.py

Python `set`s of primes are modelled as `List Nat` without duplicates
(set iteration order is irrelevant: `recompute_root` is proved
order-independent below).  Set difference `s - {t}` is `List.filter`. -/

/-- `refresh_witness` from `witness_refresh.py` (lines 16-58). -/
def refresh_witness (target_p : Nat) (set_primes : List Nat) (N g : Nat) : PyResult Nat :=
  if target_p ∉ set_primes then
    .error (.valueError "Target prime not found in set_primes")
  else if N = 0 ∨ g = 0 then .error (.valueError "N and g must be positive")
  else if target_p = 0 then .error (.valueError "target_p must be positive")
  else recompute_root (set_primes.filter (· ≠ target_p)) N g

/-- `update_witness_on_addition` from `witness_refresh.py` (lines 94-115):
`old_witness ^ added_prime mod N`. -/
def update_witness_on_addition (old_witness added_prime N : Nat) : PyResult Nat :=
  if old_witness = 0 ∨ added_prime = 0 ∨ N = 0 then
    .error (.valueError "All parameters must be positive")
  else .ok (old_witness ^ added_prime % N)

/-! ## Closed form of `recompute_root` -/

/-- The fold of `recompute_root` computes `A ^ (∏ primes) mod N`. -/
theorem recompute_loop_closed {N : Nat} (hN : 0 < N) :
    ∀ (l : List Nat) (A : Nat), A < N → (∀ p ∈ l, 0 < p) →
      recompute_loop N l A = .ok (A ^ l.prod % N) := by
  intro l
  induction l with
  | nil =>
      intro A hA _
      simp [recompute_loop, Nat.mod_eq_of_lt hA]
  | cons p rest ih =>
      intro A hA hpos
      have hp : 0 < p := hpos p (List.mem_cons_self _ _)
      have hrest : ∀ x ∈ rest, 0 < x := fun x hx => hpos x (List.mem_cons_of_mem _ hx)
      have hlt : A ^ p % N < N := Nat.mod_lt _ hN
      simp only [recompute_loop, if_neg (Nat.pos_iff_ne_zero.mp hp)]
      rw [ih (A ^ p % N) hlt hrest]
      congr 1
      rw [← Nat.pow_mod, ← pow_mul, List.prod_cons]

/-- `recompute_root` on a list of positive primes equals
`g ^ (∏ primes) mod N`. -/
theorem recompute_root_closed {N g : Nat} (hg : 0 < g) (hgN : g < N)
    (l : List Nat) (hpos : ∀ p ∈ l, 0 < p) :
    recompute_root l N g = .ok (g ^ l.prod % N) := by
  have hN : 0 < N := lt_trans hg hgN
  unfold recompute_root
  rw [if_neg (by omega), if_neg (by omega)]
  rcases l with - | ⟨p, rest⟩
  · simp [Nat.mod_eq_of_lt hgN]
  · rw [if_neg (by simp)]
    exact recompute_loop_closed hN _ g hgN hpos

/-- C4: `recompute_root` returns `g` on the empty collection, returns the
fold of modular exponentiation — which equals `g ^ (∏ primes) mod N` — on
any collection of positive primes, and its result does not depend on the
order in which the primes are listed. -/
theorem recompute_root_spec (N g : Nat) (hN : 0 < N) (hg : 0 < g) (hgN : g < N) :
    recompute_root [] N g = .ok g ∧
    (∀ ps : List Nat, (∀ p ∈ ps, 0 < p) → recompute_root ps N g = .ok (g ^ ps.prod % N)) ∧
    (∀ ps qs : List Nat, ps.Perm qs → (∀ p ∈ ps, 0 < p) →
      recompute_root ps N g = recompute_root qs N g) := by
  refine ⟨?_, fun ps hpos => recompute_root_closed hg hgN ps hpos, ?_⟩
  · unfold recompute_root
    rw [if_neg (by omega), if_neg (by omega), if_pos rfl]
  · intro ps qs hperm hpos
    have hqos : ∀ p ∈ qs, 0 < p := fun p hp => hpos p (hperm.mem_iff.mpr hp)
    rw [recompute_root_closed hg hgN ps hpos, recompute_root_closed hg hgN qs hqos,
      hperm.prod_eq]

/-- Witness for C4 at `N = 35`, `g = 2`, primes `[3, 11]` and the
permutation `[11, 3]`. -/
theorem recompute_root_spec_witness :
    recompute_root [] 35 2 = .ok 2 ∧
    recompute_root [3, 11] 35 2 = .ok (2 ^ ([3, 11] : List Nat).prod % 35) ∧
    recompute_root [3, 11] 35 2 = recompute_root [11, 3] 35 2 :=
  ⟨(recompute_root_spec 35 2 (by decide) (by decide) (by decide)).1,
   (recompute_root_spec 35 2 (by decide) (by decide) (by decide)).2.1 [3, 11] (by decide),
   (recompute_root_spec 35 2 (by decide) (by decide) (by decide)).2.2 [3, 11] [11, 3]
     (by decide) (by decide)⟩

/-! ## C5 and C10: `verify_membership` -/

/-- C5 counterexample: at `(w, p, A, N) = (1, 0, 1, 5)` the spec formula
`modpow(w, p, N) == A AND 1 ≤ w < N AND 1 ≤ A < N` holds
(`pow(1, 0, 5) = 1`), yet the code returns `False` because of its extra
`p <= 0` guard, refuting the claim that no further condition is placed
on `p`. -/
theorem verify_membership_counterexample :
    verify_membership 1 0 1 5 = false ∧
      ((1 : Int) ^ ((0 : Int)).toNat % 5 = 1 ∧ 1 ≤ (1 : Int) ∧ (1 : Int) < 5 ∧
        1 ≤ (1 : Int) ∧ (1 : Int) < 5) := by decide

/-- C5 (amended): for every integers `w, p, A` and positive `N`,
`verify_membership` returns `true` iff `w^p mod N = A`, `1 ≤ w < N`,
`1 ≤ A < N` AND additionally `p ≥ 1`. -/
theorem verify_membership_spec (w p A N : Int) (hN : 0 < N) :
    verify_membership w p A N = true ↔
      (w ^ p.toNat % N = A ∧ 1 ≤ w ∧ w < N ∧ 1 ≤ A ∧ A < N ∧ 1 ≤ p) := by
  unfold verify_membership
  split_ifs with h1 h2
  · exact iff_of_false (by simp) (by omega)
  · exact iff_of_false (by simp) (by omega)
  · constructor
    · intro h
      exact ⟨beq_iff_eq.mp h, by omega, by omega, by omega, by omega, by omega⟩
    · intro h
      exact beq_iff_eq.mpr h.1

/-- Witness for C5 at `(w, p, A, N) = (2, 3, 3, 5)`: `2^3 mod 5 = 3`. -/
theorem verify_membership_spec_witness :
    0 < (5 : Int) ∧
      (verify_membership 2 3 3 5 = true ↔
        ((2 : Int) ^ ((3 : Int)).toNat % 5 = 3 ∧ 1 ≤ (2 : Int) ∧ (2 : Int) < 5 ∧
          1 ≤ (3 : Int) ∧ (3 : Int) < 5 ∧ 1 ≤ (3 : Int))) :=
  ⟨by decide, verify_membership_spec 2 3 3 5 (by decide)⟩

/-- C10: `verify_membership` is a total Boolean function of its integer
inputs (it is a Lean function, hence never raises), and it returns
`false` — rather than failing — whenever any of the guard conditions
`w ≤ 0`, `p ≤ 0`, `A ≤ 0`, `N ≤ 0`, `w ≥ N`, `A ≥ N` is violated. -/
theorem verify_membership_total (w p A N : Int)
    (h : w ≤ 0 ∨ p ≤ 0 ∨ A ≤ 0 ∨ N ≤ 0 ∨ N ≤ w ∨ N ≤ A) :
    verify_membership w p A N = false := by
  unfold verify_membership
  split_ifs with h1 h2
  · rfl
  · rfl
  · exact ((by omega : False)).elim

/-- Witness for C10 at `(w, p, A, N) = (-3, 0, 7, 5)`. -/
theorem verify_membership_total_witness :
    ((-3 : Int) ≤ 0 ∨ (0 : Int) ≤ 0 ∨ (7 : Int) ≤ 0 ∨ (5 : Int) ≤ 0 ∨
        (5 : Int) ≤ -3 ∨ (5 : Int) ≤ 7) ∧
      verify_membership (-3) 0 7 5 = false :=
  ⟨by decide, verify_membership_total (-3) 0 7 5 (by decide)⟩

/-! ## Correctness of `extended_gcd` and `modular_inverse` -/

/-- `extended_gcd` returns the gcd together with Bezout coefficients. -/
theorem extended_gcd_spec (a b : Nat) :
    (extended_gcd a b).1 = Nat.gcd a b ∧
      (a : Int) * (extended_gcd a b).2.1 + (b : Int) * (extended_gcd a b).2.2
        = (Nat.gcd a b : Int) := by
  induction a using Nat.strong_induction_on generalizing b with
  | _ a ih =>
    by_cases ha : a = 0
    · subst ha
      rw [extended_gcd]
      simp
    · have hlt : b % a < a := Nat.mod_lt _ (Nat.pos_of_ne_zero ha)
      obtain ⟨ih1, ih2⟩ := ih (b % a) hlt a
      have hdm : (a : Int) * (↑(b / a)) + ↑(b % a) = (b : Int) := by
        exact_mod_cast congrArg (Nat.cast (R := Int)) (Nat.div_add_mod b a)
      rw [extended_gcd, dif_neg ha]
      refine ⟨by rw [ih1, Nat.gcd_rec a b], ?_⟩
      rw [Nat.gcd_rec a b]
      linear_combination ih2 - (extended_gcd (b % a) a).2.1 * hdm

/-- When `0 < a`, `1 < m` and `gcd(a, m) = 1`, `modular_inverse` returns
`some d` with `a·d ≡ 1 (mod m)` and `d < m`. -/
theorem modular_inverse_exists {a m : Nat} (ha : 0 < a) (hm : 1 < m)
    (hco : Nat.gcd a m = 1) :
    ∃ d, modular_inverse a m = .ok (some d) ∧ a * d % m = 1 ∧ d < m := by
  have hm0 : (0 : Int) < (m : Int) := by exact_mod_cast Nat.lt_of_lt_of_le Nat.zero_lt_one hm.le
  have ha1 : a % m ≠ 0 := by
    intro h0
    have : Nat.gcd a m = m := Nat.gcd_eq_right (Nat.dvd_of_mod_eq_zero h0)
    omega
  obtain ⟨hg, hbez⟩ := extended_gcd_spec (a % m) m
  have hgcd : Nat.gcd (a % m) m = 1 := by
    rw [← Nat.gcd_rec m a, Nat.gcd_comm m a, hco]
  have hg1 : (extended_gcd (a % m) m).1 = 1 := by rw [hg, hgcd]
  set x := (extended_gcd (a % m) m).2.1 with hx
  set y := (extended_gcd (a % m) m).2.2 with hy
  have hbez1 : ((a % m : Nat) : Int) * x + (m : Int) * y = 1 := by
    rw [hbez, hgcd]
    norm_num
  set D : Int := (x % (m : Int) + (m : Int)) % (m : Int) with hD
  have hD0 : 0 ≤ D := Int.emod_nonneg _ (by omega)
  have hDm : D < (m : Int) := Int.emod_lt_of_pos _ hm0
  have hDx : D % (m : Int) = x % (m : Int) := by
    rw [hD]
    simp
  have hDtn : (D.toNat : Int) = D := Int.toNat_of_nonneg hD0
  refine ⟨D.toNat, ?_, ?_, ?_⟩
  · simp only [modular_inverse, if_neg (show ¬(a = 0 ∨ m = 0) by omega)]
    rw [if_neg ha1, if_neg (by rw [hg1]; exact fun h => h rfl)]
  · have h1 : (a : Int) ≡ ((a % m : Nat) : Int) [ZMOD (m : Int)] := by
      unfold Int.ModEq
      rw [Int.natCast_mod, Int.emod_emod_of_dvd _ dvd_rfl]
    have h2 : ((D.toNat : Int)) ≡ x [ZMOD (m : Int)] := by
      unfold Int.ModEq
      rw [hDtn, hDx]
    have h3 : ((a % m : Nat) : Int) * x ≡ 1 [ZMOD (m : Int)] := by
      refine (Int.modEq_iff_dvd.mpr ?_).symm
      have heq : ((a % m : Nat) : Int) * x - 1 = (m : Int) * (-y) := by linarith [hbez1]
      rw [heq]
      exact dvd_mul_right _ _
    have hfull : ((a * D.toNat : Nat) : Int) ≡ ((1 : Nat) : Int) [ZMOD (m : Int)] := by
      push_cast
      exact (h1.mul h2).trans h3
    have hnat : a * D.toNat ≡ 1 [MOD m] := Int.natCast_modEq_iff.mp hfull
    have : a * D.toNat % m = 1 % m := hnat
    rwa [Nat.mod_eq_of_lt hm] at this
  · omega

/-- When `0 < a`, `0 < m` and `gcd(a, m) ≠ 1`, `modular_inverse` returns
`none`. -/
theorem modular_inverse_none {a m : Nat} (ha : 0 < a) (hm : 0 < m)
    (hco : Nat.gcd a m ≠ 1) : modular_inverse a m = .ok none := by
  simp only [modular_inverse, if_neg (show ¬(a = 0 ∨ m = 0) by omega)]
  by_cases h0 : a % m = 0
  · rw [if_pos h0]
  · rw [if_neg h0]
    have hg : (extended_gcd (a % m) m).1 = Nat.gcd a m := by
      rw [(extended_gcd_spec (a % m) m).1, ← Nat.gcd_rec m a, Nat.gcd_comm m a]
    rw [if_pos (by rw [hg]; exact hco)]

/-! ## Carmichael's theorem for `N = p·q` -/

/-- For distinct primes `p ≠ q` and `gcd(A, pq) = 1`,
`A ^ lcm(p-1, q-1) ≡ 1 (mod pq)`. -/
theorem carmichael_pq {p q A : Nat} (hp : p.Prime) (hq : q.Prime) (hpq : p ≠ q)
    (hA : Nat.Coprime A (p * q)) :
    A ^ Nat.lcm (p - 1) (q - 1) ≡ 1 [MOD p * q] := by
  obtain ⟨hcp, hcq⟩ := Nat.coprime_mul_iff_right.mp hA
  have modp : A ^ Nat.lcm (p - 1) (q - 1) ≡ 1 [MOD p] := by
    obtain ⟨k, hk⟩ := Nat.dvd_lcm_left (p - 1) (q - 1)
    have he : A ^ (p - 1) ≡ 1 [MOD p] := by
      have := Nat.ModEq.pow_totient hcp
      rwa [Nat.totient_prime hp] at this
    calc A ^ Nat.lcm (p - 1) (q - 1) = (A ^ (p - 1)) ^ k := by rw [← pow_mul, ← hk]
      _ ≡ 1 ^ k [MOD p] := Nat.ModEq.pow k he
      _ = 1 := one_pow k
  have modq : A ^ Nat.lcm (p - 1) (q - 1) ≡ 1 [MOD q] := by
    obtain ⟨k, hk⟩ := Nat.dvd_lcm_right (p - 1) (q - 1)
    have he : A ^ (q - 1) ≡ 1 [MOD q] := by
      have := Nat.ModEq.pow_totient hcq
      rwa [Nat.totient_prime hq] at this
    calc A ^ Nat.lcm (p - 1) (q - 1) = (A ^ (q - 1)) ^ k := by rw [← pow_mul, ← hk]
      _ ≡ 1 ^ k [MOD q] := Nat.ModEq.pow k he
      _ = 1 := one_pow k
  exact (Nat.modEq_and_modEq_iff_modEq_mul ((Nat.coprime_primes hp hq).mpr hpq)).mp
    ⟨modp, modq⟩

/-- If `A^lam ≡ 1 (mod N)`, any exponent `e ≡ 1 (mod lam)`, `e ≥ 1`,
acts as the identity on `A < N`. -/
theorem pow_exp_modeq_one {N lam A e : Nat} (hA : A < N)
    (hcar : A ^ lam ≡ 1 [MOD N]) (hmod : e ≡ 1 [MOD lam]) (he1 : 1 ≤ e) :
    A ^ e % N = A := by
  obtain ⟨k, hk⟩ := (Nat.modEq_iff_dvd' he1).mp hmod.symm
  have he : e = 1 + lam * k := by omega
  have hme : A ^ e ≡ A [MOD N] := by
    calc A ^ e = A * (A ^ lam) ^ k := by rw [he, pow_add, pow_one, pow_mul]
      _ ≡ A * 1 ^ k [MOD N] := Nat.ModEq.mul_left A (Nat.ModEq.pow k hcar)
      _ = A := by ring
  calc A ^ e % N = A % N := hme
    _ = A := Nat.mod_eq_of_lt hA

/-! ## C1 and C2: trapdoor removal -/

/-- `compute_lambda_n` computes exactly `lcm(p-1, q-1)`. -/
theorem compute_lambda_n_eq {p q : Nat} (hp : 1 < p) (hq : 1 < q) (hpq : p ≠ q) :
    compute_lambda_n p q = .ok (Nat.lcm (p - 1) (q - 1)) := by
  unfold compute_lambda_n
  rw [if_neg (by omega), if_neg hpq]
  congr 1
  have ha : 0 < p - 1 := by omega
  set G := Nat.gcd (p - 1) (q - 1) with hG
  have hg0 : 0 < G := Nat.gcd_pos_of_pos_left _ ha
  obtain ⟨c, hc⟩ := Nat.gcd_dvd_left (p - 1) (q - 1)
  rw [Nat.lcm, ← hG, hc, Nat.mul_div_cancel_left c hg0, Nat.mul_assoc,
    Nat.mul_div_cancel_left _ hg0]

/-- For distinct primes `p ≠ q`, `λ(N) = lcm(p-1, q-1) ≥ 2`. -/
theorem two_le_lcm_pred {p q : Nat} (hp : p.Prime) (hq : q.Prime) (hpq : p ≠ q) :
    2 ≤ Nat.lcm (p - 1) (q - 1) := by
  have hp2 := hp.two_le
  have hq2 := hq.two_le
  have hpos : 0 < Nat.lcm (p - 1) (q - 1) :=
    Nat.pos_of_ne_zero (Nat.lcm_ne_zero (by omega) (by omega))
  by_cases hp3 : p = 2
  · have hq3 : 3 ≤ q := by omega
    have := Nat.le_of_dvd hpos (Nat.dvd_lcm_right (p - 1) (q - 1))
    omega
  · have := Nat.le_of_dvd hpos (Nat.dvd_lcm_left (p - 1) (q - 1))
    omega

/-- On valid trapdoor inputs with `gcd(prime, λ(N)) = 1`,
`trapdoor_remove_member` returns `A ^ d mod N` where `d` inverts `prime`
modulo `λ(N)`. -/
theorem trapdoor_remove_member_eq {p q N A pr : Nat}
    (hp : p.Prime) (hq : q.Prime) (hpq : p ≠ q) (hN : N = p * q)
    (hA1 : 1 ≤ A) (hA2 : A < N) (hAco : Nat.gcd A N = 1)
    (hpr0 : 0 < pr) (hprN : pr < N)
    (hco : Nat.gcd pr (Nat.lcm (p - 1) (q - 1)) = 1) :
    ∃ d, trapdoor_remove_member A pr N p q = .ok (A ^ d % N) ∧
      pr * d % Nat.lcm (p - 1) (q - 1) = 1 ∧ d < Nat.lcm (p - 1) (q - 1) := by
  have hlam2 : 2 ≤ Nat.lcm (p - 1) (q - 1) := two_le_lcm_pred hp hq hpq
  obtain ⟨d, hmi, hd1, hdm⟩ := modular_inverse_exists hpr0 (by omega) hco
  refine ⟨d, ?_, hd1, hdm⟩
  have hN0 : 0 < N := hN ▸ Nat.mul_pos hp.pos hq.pos
  unfold trapdoor_remove_member
  rw [if_neg (show ¬(A = 0 ∨ pr = 0 ∨ N = 0 ∨ p = 0 ∨ q = 0) by
        have := hp.pos; have := hq.pos; omega),
    if_neg (show ¬p * q ≠ N from fun h => h hN.symm),
    if_neg (show ¬N ≤ pr by omega),
    if_neg (show ¬¬(1 ≤ A ∧ A < N) from not_not_intro ⟨hA1, hA2⟩),
    if_neg (show ¬Nat.gcd A N ≠ 1 from fun h => h hAco),
    compute_lambda_n_eq hp.one_lt hq.one_lt hpq]
  simp only [hmi]

/-- C1 (amended): for `N = p·q` (`p ≠ q` prime), `1 ≤ A < N` coprime to
`N`, and a prime value `pr` **less than `N`**: if `gcd(pr, λ(N)) = 1`
then `trapdoor_remove_member` returns some `B` with `B ^ pr mod N = A`,
and if `gcd(pr, λ(N)) ≠ 1` it raises the not-coprime error.  (The claim
as frozen omits the `pr < N` requirement enforced by the code; see the
counterexample.) -/
theorem trapdoor_remove_member_spec {p q N A pr : Nat}
    (hp : p.Prime) (hq : q.Prime) (hpq : p ≠ q) (hN : N = p * q)
    (hA1 : 1 ≤ A) (hA2 : A < N) (hAco : Nat.gcd A N = 1)
    (hpr : Nat.Prime pr) (hprN : pr < N) :
    (Nat.gcd pr (Nat.lcm (p - 1) (q - 1)) = 1 →
      ∃ B, trapdoor_remove_member A pr N p q = .ok B ∧ B ^ pr % N = A) ∧
    (Nat.gcd pr (Nat.lcm (p - 1) (q - 1)) ≠ 1 →
      trapdoor_remove_member A pr N p q =
        .error (.valueError
          "Cannot compute modular inverse of prime mod lambda(N). gcd(prime, lambda(N)) != 1")) := by
  have hlam2 : 2 ≤ Nat.lcm (p - 1) (q - 1) := two_le_lcm_pred hp hq hpq
  constructor
  · intro hco
    obtain ⟨d, htr, hd1, hdm⟩ :=
      trapdoor_remove_member_eq hp hq hpq hN hA1 hA2 hAco hpr.pos hprN hco
    refine ⟨A ^ d % N, htr, ?_⟩
    have hcar : A ^ Nat.lcm (p - 1) (q - 1) ≡ 1 [MOD N] := by
      have h := carmichael_pq hp hq hpq (show Nat.Coprime A (p * q) from hN ▸ hAco)
      rwa [← hN] at h
    have hd0 : 0 < d := by
      rcases Nat.eq_zero_or_pos d with h0 | h0
      · rw [h0, Nat.mul_zero, Nat.zero_mod] at hd1
        omega
      · exact h0
    have hstep : (A ^ d % N) ^ pr % N = A ^ (d * pr) % N := by
      rw [← Nat.pow_mod, ← pow_mul]
    rw [hstep]
    refine pow_exp_modeq_one hA2 hcar ?_ (Nat.mul_pos hd0 hpr.pos)
    show d * pr % Nat.lcm (p - 1) (q - 1) = 1 % Nat.lcm (p - 1) (q - 1)
    rw [Nat.mul_comm d pr, hd1, Nat.mod_eq_of_lt (by omega)]
  · intro hco
    have hN0 : 0 < N := hN ▸ Nat.mul_pos hp.pos hq.pos
    unfold trapdoor_remove_member
    rw [if_neg (show ¬(A = 0 ∨ pr = 0 ∨ N = 0 ∨ p = 0 ∨ q = 0) by
          have := hp.pos; have := hq.pos; have := hpr.pos; omega),
      if_neg (show ¬p * q ≠ N from fun h => h hN.symm),
      if_neg (show ¬N ≤ pr by omega),
      if_neg (show ¬¬(1 ≤ A ∧ A < N) from not_not_intro ⟨hA1, hA2⟩),
      if_neg (show ¬Nat.gcd A N ≠ 1 from fun h => h hAco),
      compute_lambda_n_eq hp.one_lt hq.one_lt hpq]
    simp only [modular_inverse_none hpr.pos (by omega) hco]

/-- C1 counterexample: with `N = 15 = 3·5` (so `λ(N) = lcm(2,4) = 4`),
`A = 2` (in `[1, N)` and coprime to `N`) and the prime value `17` — which
is coprime to `λ(N)` — the code raises "Prime must be less than N", so it
neither returns a root nor raises the not-coprime error.  The claim as
frozen (which quantifies over every prime coprime to `λ(N)`) is
therefore false; it must additionally require `prime < N`. -/
theorem trapdoor_remove_member_counterexample :
    trapdoor_remove_member 2 17 15 3 5 = .error (.valueError "Prime must be less than N") ∧
      Nat.Prime 17 ∧ Nat.gcd 17 (Nat.lcm (3 - 1) (5 - 1)) = 1 ∧
      Nat.Prime 3 ∧ Nat.Prime 5 ∧ 15 = 3 * 5 ∧ Nat.gcd 2 15 = 1 ∧ 1 ≤ 2 ∧ 2 < 15 := by
  refine ⟨by decide, by norm_num, by decide, by norm_num, by norm_num, by decide, by decide,
    by decide, by decide⟩

/-- Witness for C1 at `N = 209 = 11·19` (`λ(N) = 90`), `A = 4`, removing
prime `13` (coprime to 90) and — for the failure branch — prime `5`
(which divides 90). -/
theorem trapdoor_remove_member_spec_witness :
    (Nat.gcd 13 (Nat.lcm (11 - 1) (19 - 1)) = 1 ∧
      ∃ B, trapdoor_remove_member 4 13 209 11 19 = .ok B ∧ B ^ 13 % 209 = 4) ∧
    (Nat.gcd 5 (Nat.lcm (11 - 1) (19 - 1)) ≠ 1 ∧
      trapdoor_remove_member 4 5 209 11 19 =
        .error (.valueError
          "Cannot compute modular inverse of prime mod lambda(N). gcd(prime, lambda(N)) != 1")) :=
  ⟨⟨by decide,
    (trapdoor_remove_member_spec (by norm_num) (by norm_num) (by decide) (by decide)
      (by decide) (by decide) (by decide) (by norm_num) (by decide)).1 (by decide)⟩,
   ⟨by decide,
    (trapdoor_remove_member_spec (by norm_num) (by norm_num) (by decide) (by decide)
      (by decide) (by decide) (by decide) (by norm_num) (by decide)).2 (by decide)⟩⟩

/-- C2 (amended): for `N = p·q` (`p ≠ q` prime), `1 ≤ A < N` coprime to
`N`, and a positive prime `pr` with `gcd(pr, λ(N)) = 1` **and `pr < N`**:
removing after adding restores `A` exactly.  (The claim as frozen omits
the `pr < N` requirement enforced by `trapdoor_remove_member`; see the
counterexample.) -/
theorem add_remove_round_trip {p q N A pr : Nat}
    (hp : p.Prime) (hq : q.Prime) (hpq : p ≠ q) (hN : N = p * q)
    (hA1 : 1 ≤ A) (hA2 : A < N) (hAco : Nat.gcd A N = 1)
    (hpr : Nat.Prime pr) (hprN : pr < N)
    (hco : Nat.gcd pr (Nat.lcm (p - 1) (q - 1)) = 1) :
    (add_member A pr N).bind (fun B => trapdoor_remove_member B pr N p q) = .ok A := by
  have hlam2 : 2 ≤ Nat.lcm (p - 1) (q - 1) := two_le_lcm_pred hp hq hpq
  have hN0 : 0 < N := hN ▸ Nat.mul_pos hp.pos hq.pos
  have hN1 : 1 < N := by
    rw [hN]
    calc 1 < 2 * 2 := by norm_num
      _ ≤ p * q := Nat.mul_le_mul hp.two_le hq.two_le
  have hadd : add_member A pr N = .ok (A ^ pr % N) := by
    unfold add_member
    rw [if_neg (by have := hpr.pos; omega)]
  rw [hadd]
  simp only [Except.bind]
  have hBco : Nat.gcd (A ^ pr % N) N = 1 := by
    have h1 : Nat.gcd (A ^ pr % N) N = Nat.gcd N (A ^ pr) := by rw [← Nat.gcd_rec]
    rw [h1, Nat.gcd_comm]
    exact Nat.Coprime.pow_left pr hAco
  have hB1 : 1 ≤ A ^ pr % N := by
    rcases Nat.eq_zero_or_pos (A ^ pr % N) with h0 | h0
    · rw [h0, Nat.gcd_zero_left] at hBco
      omega
    · exact h0
  have hB2 : A ^ pr % N < N := Nat.mod_lt _ hN0
  obtain ⟨d, htr, hd1, hdm⟩ :=
    trapdoor_remove_member_eq hp hq hpq hN hB1 hB2 hBco hpr.pos hprN hco
  rw [htr]
  congr 1
  have hcar : A ^ Nat.lcm (p - 1) (q - 1) ≡ 1 [MOD N] := by
    have h := carmichael_pq hp hq hpq (show Nat.Coprime A (p * q) from hN ▸ hAco)
    rwa [← hN] at h
  have hd0 : 0 < d := by
    rcases Nat.eq_zero_or_pos d with h0 | h0
    · rw [h0, Nat.mul_zero, Nat.zero_mod] at hd1
      omega
    · exact h0
  have hstep : (A ^ pr % N) ^ d % N = A ^ (pr * d) % N := by
    rw [← Nat.pow_mod, ← pow_mul]
  rw [hstep]
  refine pow_exp_modeq_one hA2 hcar ?_ (Nat.mul_pos hpr.pos hd0)
  show pr * d % Nat.lcm (p - 1) (q - 1) = 1 % Nat.lcm (p - 1) (q - 1)
  rw [hd1, Nat.mod_eq_of_lt (by omega)]

/-- C2 counterexample: with `N = 15 = 3·5` (`λ(N) = 4`), `A = 2` and the
positive prime `17` coprime to `λ(N)`, `add_member` succeeds but the
subsequent `trapdoor_remove_member` raises "Prime must be less than N",
so the round trip does not return `A`.  The frozen claim must
additionally require `pr < N`. -/
theorem add_remove_round_trip_counterexample :
    (add_member 2 17 15).bind (fun B => trapdoor_remove_member B 17 15 3 5) =
        .error (.valueError "Prime must be less than N") ∧
      (add_member 2 17 15).bind (fun B => trapdoor_remove_member B 17 15 3 5) ≠ .ok 2 ∧
      Nat.Prime 17 ∧ Nat.gcd 17 (Nat.lcm (3 - 1) (5 - 1)) = 1 ∧
      Nat.Prime 3 ∧ Nat.Prime 5 ∧ 15 = 3 * 5 ∧ Nat.gcd 2 15 = 1 ∧ 1 ≤ 2 ∧ 2 < 15 := by
  refine ⟨by decide, by decide, by norm_num, by decide, by norm_num, by norm_num,
    by decide, by decide, by decide, by decide⟩

/-- Witness for C2 at `N = 209 = 11·19`, `A = 4`, prime `13`. -/
theorem add_remove_round_trip_witness :
    Nat.gcd 13 (Nat.lcm (11 - 1) (19 - 1)) = 1 ∧
      (add_member 4 13 209).bind (fun B => trapdoor_remove_member B 13 209 11 19) = .ok 4 :=
  ⟨by decide,
   add_remove_round_trip (by norm_num) (by norm_num) (by decide) (by decide) (by decide)
     (by decide) (by decide) (by norm_num) (by decide) (by decide)⟩

/-! ## C6: incremental witness update on addition -/

/-- C6: for a set of positive primes `s` (modelled as a duplicate-free
list), a target `t ∈ s`, a new prime `q ∉ s`, and parameters
`0 < g < N` with `gcd(g, N) = 1`: raising the old witness
`refresh_witness t s` to the added prime `q` equals recomputing the
witness from the enlarged set `{q} ∪ s`. -/
theorem update_witness_on_addition_agrees {s : List Nat} {t q N g : Nat}
    (hnd : s.Nodup) (ht : t ∈ s) (hq : q ∉ s) (hq0 : 0 < q)
    (hg : 0 < g) (hgN : g < N) (hco : Nat.Coprime g N)
    (hpos : ∀ x ∈ s, 0 < x) :
    (refresh_witness t s N g).bind (fun w => update_witness_on_addition w q N) =
      refresh_witness t (q :: s) N g := by
  have hN : 0 < N := lt_trans hg hgN
  have hN2 : 2 ≤ N := by omega
  have ht0 : 0 < t := hpos t ht
  have hqt : q ≠ t := fun h => hq (h ▸ ht)
  have hfpos : ∀ x ∈ s.filter (fun y => y ≠ t), 0 < x := by
    intro x hx
    exact hpos x (List.mem_of_mem_filter hx)
  have hfilter_cons :
      (q :: s).filter (fun y => y ≠ t) = q :: s.filter (fun y => y ≠ t) := by
    simp [List.filter_cons, hqt]
  have hW : ∀ (P : Nat), 1 ≤ g ^ P % N := by
    intro P
    have hcoP : Nat.gcd (g ^ P % N) N = 1 := by
      have h1 : Nat.gcd (g ^ P % N) N = Nat.gcd N (g ^ P) := by rw [← Nat.gcd_rec]
      rw [h1, Nat.gcd_comm]
      exact Nat.Coprime.pow_left P hco
    rcases Nat.eq_zero_or_pos (g ^ P % N) with h0 | h0
    · rw [h0, Nat.gcd_zero_left] at hcoP
      omega
    · exact h0
  unfold refresh_witness
  rw [if_neg (not_not_intro ht), if_neg (by omega), if_neg (by omega),
    if_neg (not_not_intro (List.mem_cons_of_mem q ht)), if_neg (by omega),
    if_neg (by omega), hfilter_cons]
  rw [recompute_root_closed hg hgN _ hfpos,
    recompute_root_closed hg hgN _ (by
      intro x hx
      rcases List.mem_cons.mp hx with h | h
      · omega
      · exact hfpos x h)]
  simp only [Except.bind]
  unfold update_witness_on_addition
  rw [if_neg (by
    have := hW ((s.filter (fun y => y ≠ t)).prod)
    omega)]
  congr 1
  rw [← Nat.pow_mod, ← pow_mul, List.prod_cons, Nat.mul_comm q]

/-- Witness for C6 at `s = [3, 11]`, `t = 3`, `q = 13`, `N = 35`,
`g = 2`. -/
theorem update_witness_on_addition_agrees_witness :
    (3 ∈ ([3, 11] : List Nat)) ∧
      (refresh_witness 3 [3, 11] 35 2).bind (fun w => update_witness_on_addition w 13 35) =
        refresh_witness 3 (13 :: [3, 11]) 35 2 :=
  ⟨by decide,
   update_witness_on_addition_agrees (by decide) (by decide) (by decide) (by decide)
     (by decide) (by decide) (by decide) (by decide)⟩

/-! ## src/gateway: challenge-response verifier

The HTTP endpoints `auth_start` / `auth_verify` of
`src/gateway/api_routes.py` are embedded as state-transition functions
over the in-memory nonce table (`active_nonces`), the device table (the
database `Device` rows), and the accumulator parameters `(N, g)` of
`accumulator_service`.  Time (`get_current_timestamp()`) and the RNG
output (`generate_nonce()`) are explicit parameters.  Hex encodings of
witnesses and primes are modelled as the identity on naturals. -/

/-- One entry of `active_nonces` (`api_routes.py` lines 372-377). -/
structure NonceData where
  device_id : String
  created_at : Nat
  expires_at : Nat
  used : Bool
deriving DecidableEq

/-- A `Device` row: the fields read by the authentication flow. -/
structure DeviceRec where
  id : String
  prime_p : Nat
  status : String
deriving DecidableEq

/-- Gateway state: the nonce dict, device table and RSA parameters. -/
structure GatewayState where
  nonces : List (String × NonceData)
  devices : List DeviceRec
  N : Nat
  g : Nat
deriving DecidableEq

/-- `active_nonces[n]` (dict lookup; keys are unique in a dict, and all
update operations below preserve that). -/
def lookupNonce : List (String × NonceData) → String → Option NonceData
  | [], _ => none
  | kv :: rest, n => if kv.1 = n then some kv.2 else lookupNonce rest n

/-- `nonce_data["used"] = True` applied to the stored entry. -/
def markUsed (tbl : List (String × NonceData)) (n : String) :
    List (String × NonceData) :=
  tbl.map (fun kv => if kv.1 = n then (kv.1, { kv.2 with used := true }) else kv)

/-- `del active_nonces[n]`. -/
def delNonce (tbl : List (String × NonceData)) (n : String) :
    List (String × NonceData) :=
  tbl.filter (fun kv => kv.1 ≠ n)

/-- `active_nonces[n] = d` (dict insert-or-overwrite; position in the
list is irrelevant to lookup). -/
def setNonce (tbl : List (String × NonceData)) (n : String) (d : NonceData) :
    List (String × NonceData) :=
  (n, d) :: delNonce tbl n

/-- `is_expired(timestamp, ttl)` from `utils.py` (lines 270-272):
`now - timestamp > ttl`, stated additively (equivalent over the
integers, and free of natural truncation). -/
def is_expired (now timestamp ttl : Nat) : Bool := timestamp + ttl < now

/-- `_cleanup_expired_nonces` from `api_routes.py` (lines 526-538). -/
def cleanup_expired_nonces (tbl : List (String × NonceData)) (now : Nat) :
    List (String × NonceData) :=
  tbl.filter (fun kv => ¬ is_expired now kv.2.created_at 300)

/-- Python `str.strip()`: drop whitespace from both ends. -/
def pyStrip (cs : List Char) : List Char :=
  ((cs.dropWhile (fun c => c.isWhitespace)).reverse.dropWhile
    (fun c => c.isWhitespace)).reverse

/-- `validate_device_id` from `utils.py` (lines 234-262): strip, then
check non-emptiness, length ≤ 64 and the `[A-Za-z0-9_-]` charset;
return the normalized id. -/
def validate_device_id (device_id : String) : PyResult String :=
  let d := pyStrip device_id.toList
  if d.isEmpty then .error (.valueError "Device ID cannot be empty")
  else if 64 < d.length then .error (.valueError "Device ID too long (max 64 characters)")
  else if ¬(d.all (fun c => c.isAlphanum ∨ c = '-' ∨ c = '_')) then
    .error (.valueError "Device ID contains invalid characters")
  else .ok (String.mk d)

/-- `auth_start` from `api_routes.py` (lines 356-400).  `nonce` is the
output of the cryptographic RNG `generate_nonce()` (128 bits, hex);
`now` is `get_current_timestamp()`.  Note: the endpoint performs **no**
device lookup. -/
def auth_start (s : GatewayState) (now : Nat) (device_id nonce : String) :
    GatewayState × PyResult (String × Nat) :=
  match validate_device_id device_id with
  | .error e => (s, .error e)
  | .ok did =>
    let expires_at := now + 300
    let nd : NonceData := ⟨did, now, expires_at, false⟩
    ({ s with nonces := cleanup_expired_nonces (setNonce s.nonces nonce nd) now },
      .ok (nonce, expires_at))

/-- `get_active_device_primes` from `accumulator_service.py`
(lines 79-92). -/
def get_active_device_primes (devices : List DeviceRec) : List Nat :=
  (devices.filter (fun d => d.status = "active")).map (fun d => d.prime_p)

/-- `compute_current_accumulator` from `accumulator_service.py`
(lines 94-101). -/
def compute_current_accumulator (devices : List DeviceRec) (N g : Nat) : PyResult Nat :=
  if get_active_device_primes devices = [] then .ok g
  else recompute_root (get_active_device_primes devices) N g

/-- `verify_device_membership` from `accumulator_service.py`
(lines 213-255); any exception makes it return `False` (the
`try/except` of the source). -/
def verify_device_membership (devices : List DeviceRec) (N g : Nat)
    (device_id : String) (witness : Nat) : Bool :=
  match devices.find? (fun d => d.id = device_id ∧ d.status = "active") with
  | none => false
  | some d =>
    match compute_current_accumulator devices N g with
    | .error _ => false
    | .ok acc => verify_membership (witness : Int) (d.prime_p : Int) (acc : Int) (N : Int)

/-- `refresh_device_witness` from `accumulator_service.py`
(lines 257-295): recomputes the device's witness from the set of active
primes (`set(all_primes)` is `List.dedup`); `none` when the device is
not found or the refresh raises. -/
def refresh_device_witness (devices : List DeviceRec) (N g : Nat)
    (device_id : String) : Option Nat :=
  match devices.find? (fun d => d.id = device_id ∧ d.status = "active") with
  | none => none
  | some d =>
    match refresh_witness d.prime_p (get_active_device_primes devices).dedup N g with
    | .error _ => none
    | .ok w => some w

/-- Outcome of the `auth_verify` endpoint. -/
inductive AuthOutcome where
  | http401 (detail : String)
  | http400 (detail : String)
  | staleWitness (newWitness : Nat)
  | okAuth (device_id : String)
deriving DecidableEq

/-- An `AuthVerifyRequest` (the fields the embedded flow reads). -/
structure AuthRequest where
  device_id : String
  witness : Nat
  nonce : String
  has_pubkey_pem : Bool
deriving DecidableEq

/-- The nonce-validation prefix of `auth_verify` (`api_routes.py`
lines 419-448): reject a missing, already-used, expired, or
wrongly-bound nonce; otherwise consume it. -/
def auth_verify_nonce_step (s : GatewayState) (now : Nat) (req : AuthRequest) :
    Except (GatewayState × AuthOutcome) GatewayState :=
  match lookupNonce s.nonces req.nonce with
  | none => .error (s, .http401 "Invalid or expired nonce")
  | some nd =>
    if nd.used then .error (s, .http401 "Nonce already used")
    else if is_expired now nd.created_at 300 then
      .error ({ s with nonces := delNonce s.nonces req.nonce }, .http401 "Nonce expired")
    else if nd.device_id ≠ req.device_id then
      .error (s, .http401 "Nonce device mismatch")
    else .ok { s with nonces := markUsed s.nonces req.nonce }

/-- The remainder of `auth_verify` (`api_routes.py` lines 450-514), run
on the nonce-consumed state.  `sigOk` abstracts base64 decoding plus
Ed25519 signature verification (any failure there is HTTP 401
"Signature verification failed", since even the inner `HTTPException`
is caught by the `except Exception` handler of that block). -/
def auth_verify_main (s1 : GatewayState) (req : AuthRequest) (sigOk : Bool) :
    GatewayState × AuthOutcome :=
  if (s1.devices.find? (fun d => d.id = req.device_id)).isNone ∧ ¬req.has_pubkey_pem then
    (s1, .http400 "Device not found and no public key provided")
  else if ¬sigOk then (s1, .http401 "Signature verification failed")
  else if verify_device_membership s1.devices s1.N s1.g req.device_id req.witness then
    (s1, .okAuth req.device_id)
  else
    match s1.devices.find? (fun d => d.id = req.device_id) with
    | some d =>
      if d.status = "active" then
        match refresh_device_witness s1.devices s1.N s1.g req.device_id with
        | some w => (s1, .staleWitness w)
        | none => (s1, .http401 "Invalid membership proof")
      else (s1, .http401 "Invalid membership proof")
    | none => (s1, .http401 "Invalid membership proof")

/-- `auth_verify` from `api_routes.py` (lines 403-523). -/
def auth_verify (s : GatewayState) (now : Nat) (req : AuthRequest) (sigOk : Bool) :
    GatewayState × AuthOutcome :=
  match auth_verify_nonce_step s now req with
  | .error out => out
  | .ok s1 => auth_verify_main s1 req sigOk

/-- A nonce that can never again authenticate: consumed or absent. -/
def nonceDead (tbl : List (String × NonceData)) (n : String) : Bool :=
  match lookupNonce tbl n with
  | none => true
  | some nd => nd.used

/-! ## Nonce-table lemmas -/

theorem lookupNonce_markUsed (tbl : List (String × NonceData)) (n m : String) :
    lookupNonce (markUsed tbl n) m =
      if m = n then (lookupNonce tbl m).map (fun nd => { nd with used := true })
      else lookupNonce tbl m := by
  induction tbl with
  | nil =>
      simp only [markUsed, List.map_nil, lookupNonce, Option.map_none]
      split <;> rfl
  | cons kv rest ih =>
      simp only [markUsed, List.map_cons, lookupNonce]
      by_cases h1 : kv.1 = n <;> by_cases h2 : kv.1 = m <;>
        simp only [if_pos, if_neg, h1, h2, ite_true, ite_false, lookupNonce] <;>
        simp only [markUsed] at ih <;>
        first
        | (rw [if_pos (h2 ▸ h1 : m = n)] <;> simp)
        | (rw [ih]; split <;> simp_all)
        | simp_all

theorem lookupNonce_delNonce (tbl : List (String × NonceData)) (n m : String) :
    lookupNonce (delNonce tbl n) m =
      if m = n then none else lookupNonce tbl m := by
  induction tbl with
  | nil =>
      simp only [delNonce, List.filter_nil, lookupNonce]
      split <;> rfl
  | cons kv rest ih =>
      simp only [delNonce, List.filter_cons, lookupNonce]
      by_cases h1 : kv.1 = n <;> by_cases h2 : kv.1 = m <;>
        simp only [delNonce] at ih <;>
        simp_all [lookupNonce]

theorem nonceDead_markUsed {tbl : List (String × NonceData)} {n m : String}
    (h : m ≠ n → nonceDead tbl m = true) :
    nonceDead (markUsed tbl n) m = true := by
  unfold nonceDead
  rw [lookupNonce_markUsed]
  by_cases hmn : m = n
  · rw [if_pos hmn]
    cases lookupNonce tbl m <;> simp
  · rw [if_neg hmn]
    have := h hmn
    unfold nonceDead at this
    exact this

theorem nonceDead_delNonce {tbl : List (String × NonceData)} {n m : String}
    (h : m ≠ n → nonceDead tbl m = true) :
    nonceDead (delNonce tbl n) m = true := by
  unfold nonceDead
  rw [lookupNonce_delNonce]
  by_cases hmn : m = n
  · rw [if_pos hmn]
  · rw [if_neg hmn]
    have := h hmn
    unfold nonceDead at this
    exact this

/-- `auth_verify_main` never modifies the state it is given. -/
theorem auth_verify_main_fst (s1 : GatewayState) (req : AuthRequest) (sigOk : Bool) :
    (auth_verify_main s1 req sigOk).1 = s1 := by
  unfold auth_verify_main
  split_ifs <;> first
  | rfl
  | (split <;> first
      | rfl
      | (split_ifs <;> first | rfl | (split <;> rfl)))

/-- C7: `auth_verify` rejects with an HTTP 401 authentication failure
whenever the presented nonce is missing from the table, already
consumed, past its 300 s TTL, or bound to a different `device_id`; a
consumed-or-absent nonce can never yield `okAuth` (nor a stale-witness
response), consumption is preserved by every further `auth_verify`
call, and a successful authentication itself leaves the nonce
consumed.  (Together the last three conjuncts give, by induction over
any sequence of `auth_verify` calls, that a nonce consumed by one
attempt can never authenticate later.) -/
theorem auth_verify_nonce_protection (s : GatewayState) (now : Nat)
    (req : AuthRequest) (sigOk : Bool) :
    (lookupNonce s.nonces req.nonce = none →
      auth_verify s now req sigOk = (s, .http401 "Invalid or expired nonce")) ∧
    (∀ nd, lookupNonce s.nonces req.nonce = some nd → nd.used = true →
      auth_verify s now req sigOk = (s, .http401 "Nonce already used")) ∧
    (∀ nd, lookupNonce s.nonces req.nonce = some nd → nd.used = false →
      is_expired now nd.created_at 300 = true →
      auth_verify s now req sigOk =
        ({ s with nonces := delNonce s.nonces req.nonce }, .http401 "Nonce expired")) ∧
    (∀ nd, lookupNonce s.nonces req.nonce = some nd → nd.used = false →
      is_expired now nd.created_at 300 = false → nd.device_id ≠ req.device_id →
      auth_verify s now req sigOk = (s, .http401 "Nonce device mismatch")) ∧
    (nonceDead s.nonces req.nonce = true →
      (∀ d, (auth_verify s now req sigOk).2 ≠ .okAuth d) ∧
      (∀ w, (auth_verify s now req sigOk).2 ≠ .staleWitness w)) ∧
    (∀ n, nonceDead s.nonces n = true →
      nonceDead (auth_verify s now req sigOk).1.nonces n = true) ∧
    ((auth_verify s now req sigOk).2 = .okAuth req.device_id →
      nonceDead (auth_verify s now req sigOk).1.nonces req.nonce = true) := by
  refine ⟨?_, ?_, ?_, ?_, ?_, ?_, ?_⟩
  · intro hl
    simp only [auth_verify, auth_verify_nonce_step, hl]
  · intro nd hl hu
    simp only [auth_verify, auth_verify_nonce_step, hl, hu, ite_true]
  · intro nd hl hu hexp
    simp only [auth_verify, auth_verify_nonce_step, hl, hu, hexp, ite_true, ite_false,
      Bool.false_eq_true, Bool.true_eq_false]
  · intro nd hl hu hexp hne
    simp only [auth_verify, auth_verify_nonce_step, hl, hu, hexp, ite_true, ite_false,
      Bool.false_eq_true, Bool.true_eq_false, if_pos hne]
  · intro hdead
    unfold nonceDead at hdead
    rcases hl : lookupNonce s.nonces req.nonce with - | nd
    · rw [hl] at hdead
      simp only [auth_verify, auth_verify_nonce_step, hl]
      exact ⟨fun d => by simp, fun w => by simp⟩
    · rw [hl] at hdead
      dsimp only at hdead
      simp only [auth_verify, auth_verify_nonce_step, hl, hdead, ite_true]
      exact ⟨fun d => by simp, fun w => by simp⟩
  · intro n hdead
    rcases hl : lookupNonce s.nonces req.nonce with - | nd
    · simpa only [auth_verify, auth_verify_nonce_step, hl] using hdead
    · simp only [auth_verify, auth_verify_nonce_step, hl]
      by_cases hu : nd.used
      · simpa only [hu, ite_true] using hdead
      · simp only [hu, ite_false, Bool.false_eq_true]
        by_cases hexp : is_expired now nd.created_at 300
        · simp only [hexp, ite_true]
          exact nonceDead_delNonce (fun _ => hdead)
        · simp only [hexp, ite_false, Bool.false_eq_true]
          by_cases hne : nd.device_id ≠ req.device_id
          · simpa only [if_pos hne] using hdead
          · simp only [if_neg hne]
            rw [auth_verify_main_fst]
            exact nonceDead_markUsed (fun _ => hdead)
  · intro hok
    rcases hl : lookupNonce s.nonces req.nonce with - | nd
    · rw [show auth_verify s now req sigOk = (s, .http401 "Invalid or expired nonce") by
        simp only [auth_verify, auth_verify_nonce_step, hl]] at hok
      simp at hok
    · simp only [auth_verify, auth_verify_nonce_step, hl] at hok ⊢
      by_cases hu : nd.used
      · simp only [hu, ite_true] at hok
        simp at hok
      · simp only [hu, ite_false, Bool.false_eq_true] at hok ⊢
        by_cases hexp : is_expired now nd.created_at 300
        · simp only [hexp, ite_true] at hok
          simp at hok
        · simp only [hexp, ite_false, Bool.false_eq_true] at hok ⊢
          by_cases hne : nd.device_id ≠ req.device_id
          · simp only [if_pos hne] at hok
            simp at hok
          · simp only [if_neg hne] at hok ⊢
            rw [auth_verify_main_fst]
            exact nonceDead_markUsed (fun h => absurd rfl h)

/-- Witness for C7: a consumed nonce (`used = true`) is rejected with
"Nonce already used". -/
theorem auth_verify_nonce_protection_witness :
    lookupNonce [("n0", (⟨"d1", 100, 400, true⟩ : NonceData))] "n0" =
        some ⟨"d1", 100, 400, true⟩ ∧
      auth_verify ⟨[("n0", ⟨"d1", 100, 400, true⟩)], [], 209, 4⟩ 150
          ⟨"d1", 5, "n0", false⟩ true =
        (⟨[("n0", ⟨"d1", 100, 400, true⟩)], [], 209, 4⟩, .http401 "Nonce already used") :=
  ⟨by decide,
   (auth_verify_nonce_protection ⟨[("n0", ⟨"d1", 100, 400, true⟩)], [], 209, 4⟩ 150
       ⟨"d1", 5, "n0", false⟩ true).2.1 ⟨"d1", 100, 400, true⟩ (by decide) (by decide)⟩

/-! ## C8: stale-witness recovery -/

/-- If the first device found by id is active, the id-and-active search
finds the same device. -/
theorem find?_id_active {l : List DeviceRec} {did : String} {d : DeviceRec}
    (hfind : l.find? (fun x => x.id = did) = some d) (hact : d.status = "active") :
    l.find? (fun x => x.id = did ∧ x.status = "active") = some d := by
  induction l with
  | nil => simp [List.find?] at hfind
  | cons a rest ih =>
      by_cases h : a.id = did
      · have ha : a = d := by simpa [List.find?_cons, h] using hfind
        subst ha
        simp [List.find?_cons, h, hact]
      · rw [List.find?_cons] at hfind ⊢
        rw [decide_eq_false h] at hfind
        rw [decide_eq_false (fun hc => h hc.1)]
        exact ih hfind

/-- The prime of a device found by the id-and-active search is among the
active device primes. -/
theorem prime_mem_active {l : List DeviceRec} {did : String} {d : DeviceRec}
    (hfind : l.find? (fun x => x.id = did ∧ x.status = "active") = some d) :
    d.prime_p ∈ get_active_device_primes l := by
  have hmem : d ∈ l := List.mem_of_find?_eq_some hfind
  have hp := List.find?_some hfind
  simp only [decide_eq_true_eq] at hp
  unfold get_active_device_primes
  exact List.mem_map_of_mem _ (List.mem_filter.mpr ⟨hmem, by simp [hp.2]⟩)

/-- `g ^ P mod N` is a unit mod `N` when `gcd(g, N) = 1` and `N ≥ 2`. -/
theorem pow_mod_coprime_pos {g N : Nat} (hco : Nat.Coprime g N) (hN2 : 2 ≤ N) (P : Nat) :
    1 ≤ g ^ P % N := by
  have hcoP : Nat.gcd (g ^ P % N) N = 1 := by
    have h1 : Nat.gcd (g ^ P % N) N = Nat.gcd N (g ^ P) := by rw [← Nat.gcd_rec]
    rw [h1, Nat.gcd_comm]
    exact Nat.Coprime.pow_left P hco
  rcases Nat.eq_zero_or_pos (g ^ P % N) with h0 | h0
  · rw [h0, Nat.gcd_zero_left] at hcoP
    omega
  · exact h0

/-- On a duplicate-free list, the product of the elements different from
a member `a`, times `a`, is the full product. -/
theorem prod_filter_ne_mul {l : List Nat} {a : Nat} (hnd : l.Nodup) (ha : a ∈ l) :
    (l.filter (fun x => x ≠ a)).prod * a = l.prod := by
  have herase : l.erase a = l.filter (fun x => x ≠ a) := by
    rw [hnd.erase_eq_filter a]
    congr 1
    funext x
    by_cases hx : x = a <;> simp [hx]
  have hperm : l.Perm (a :: l.erase a) := List.perm_cons_erase ha
  rw [← herase]
  calc (l.erase a).prod * a = a * (l.erase a).prod := Nat.mul_comm _ _
    _ = (a :: l.erase a).prod := (List.prod_cons).symm
    _ = l.prod := hperm.prod_eq.symm

/-- `verify_membership` on naturals (the service passes Python ints that
are natural numbers). -/
theorem verify_membership_nat {w p A N : Nat} (hN : 0 < N) :
    verify_membership (w : Int) (p : Int) (A : Int) (N : Int) = true ↔
      (w ^ p % N = A ∧ 1 ≤ w ∧ w < N ∧ 1 ≤ A ∧ A < N ∧ 1 ≤ p) := by
  rw [verify_membership_spec _ _ _ _ (by exact_mod_cast hN), Int.toNat_natCast]
  constructor
  · rintro ⟨h1, h2, h3, h4, h5, h6⟩
    exact ⟨by exact_mod_cast h1, by exact_mod_cast h2, by exact_mod_cast h3,
      by exact_mod_cast h4, by exact_mod_cast h5, by exact_mod_cast h6⟩
  · rintro ⟨h1, h2, h3, h4, h5, h6⟩
    exact ⟨by exact_mod_cast h1, by exact_mod_cast h2, by exact_mod_cast h3,
      by exact_mod_cast h4, by exact_mod_cast h5, by exact_mod_cast h6⟩

/-- C8: when the nonce and signature checks pass but the submitted
witness fails verification, and the requesting device is ACTIVE, the
outcome is the stale-witness response: authentication is denied (a
`staleWitness` response, never `okAuth`), and the carried refreshed
witness passes the very membership check — against the current root —
that the submitted witness failed. -/
theorem auth_verify_stale_witness {s : GatewayState} {now : Nat} {req : AuthRequest}
    {nd : NonceData} {d : DeviceRec}
    (hnonce : lookupNonce s.nonces req.nonce = some nd)
    (hu : nd.used = false)
    (hexp : is_expired now nd.created_at 300 = false)
    (hbound : nd.device_id = req.device_id)
    (hfind : s.devices.find? (fun x => x.id = req.device_id) = some d)
    (hactive : d.status = "active")
    (hfail : verify_device_membership s.devices s.N s.g req.device_id req.witness = false)
    (hg : 0 < s.g) (hgN : s.g < s.N) (hco : Nat.Coprime s.g s.N)
    (hppos : ∀ x ∈ get_active_device_primes s.devices, 0 < x)
    (hnodup : (get_active_device_primes s.devices).Nodup) :
    ∃ w, auth_verify s now req true =
        ({ s with nonces := markUsed s.nonces req.nonce }, .staleWitness w) ∧
      verify_device_membership s.devices s.N s.g req.device_id w = true ∧
      ∀ did, (AuthOutcome.staleWitness w : AuthOutcome) ≠ .okAuth did := by
  have hN0 : 0 < s.N := lt_trans hg hgN
  have hN2 : 2 ≤ s.N := by omega
  have hfind2 := find?_id_active hfind hactive
  have hpmem : d.prime_p ∈ get_active_device_primes s.devices := prime_mem_active hfind2
  have hdedup : (get_active_device_primes s.devices).dedup =
      get_active_device_primes s.devices := List.Nodup.dedup hnodup
  set w := s.g ^ ((get_active_device_primes s.devices).filter
    (fun x => x ≠ d.prime_p)).prod % s.N with hw
  have hfpos : ∀ x ∈ (get_active_device_primes s.devices).filter
      (fun y => y ≠ d.prime_p), 0 < x :=
    fun x hx => hppos x (List.mem_of_mem_filter hx)
  have hrw : refresh_witness d.prime_p
      (get_active_device_primes s.devices).dedup s.N s.g = .ok w := by
    unfold refresh_witness
    rw [hdedup, if_neg (not_not_intro hpmem), if_neg (by omega),
      if_neg (by have := hppos _ hpmem; omega)]
    exact recompute_root_closed hg hgN _ hfpos
  have hrefresh : refresh_device_witness s.devices s.N s.g req.device_id = some w := by
    unfold refresh_device_witness
    rw [hfind2]
    simp only [hrw]
  have hne : get_active_device_primes s.devices ≠ [] := by
    intro h
    rw [h] at hpmem
    exact absurd hpmem (List.not_mem_nil _)
  have hacc : compute_current_accumulator s.devices s.N s.g =
      .ok (s.g ^ (get_active_device_primes s.devices).prod % s.N) := by
    unfold compute_current_accumulator
    rw [if_neg hne]
    exact recompute_root_closed hg hgN _ hppos
  have hver : verify_device_membership s.devices s.N s.g req.device_id w = true := by
    unfold verify_device_membership
    rw [hfind2]
    simp only [hacc]
    rw [verify_membership_nat hN0]
    refine ⟨?_, pow_mod_coprime_pos hco hN2 _, Nat.mod_lt _ hN0,
      pow_mod_coprime_pos hco hN2 _, Nat.mod_lt _ hN0, hppos _ hpmem⟩
    rw [hw, ← Nat.pow_mod, ← pow_mul, prod_filter_ne_mul hnodup hpmem]
  refine ⟨w, ?_, hver, fun did => by simp⟩
  simp only [auth_verify, auth_verify_nonce_step, hnonce, hu, hexp, Bool.false_eq_true,
    ite_false, if_neg (not_not_intro hbound)]
  unfold auth_verify_main
  rw [if_neg (by simp [hfind]), if_neg (by simp)]
  rw [if_neg (by simp only [hfail]; exact Bool.false_ne_true)]
  rw [hfind]
  dsimp only
  rw [if_pos hactive, hrefresh]

/-- Witness for C8: two active devices with primes 3 and 11 over
`(N, g) = (35, 2)`; device `d1` presents witness 1, which fails against
the current root, and receives a refreshed witness instead of
authentication. -/
theorem auth_verify_stale_witness_witness :
    verify_device_membership [⟨"d1", 3, "active"⟩, ⟨"d2", 11, "active"⟩] 35 2 "d1" 1 =
        false ∧
      ∃ w, auth_verify ⟨[("n0", ⟨"d1", 100, 400, false⟩)],
            [⟨"d1", 3, "active"⟩, ⟨"d2", 11, "active"⟩], 35, 2⟩ 100
            ⟨"d1", 1, "n0", true⟩ true =
          ({ (⟨[("n0", ⟨"d1", 100, 400, false⟩)],
              [⟨"d1", 3, "active"⟩, ⟨"d2", 11, "active"⟩], 35, 2⟩ : GatewayState) with
              nonces := markUsed [("n0", ⟨"d1", 100, 400, false⟩)] "n0" },
            .staleWitness w) ∧
        verify_device_membership [⟨"d1", 3, "active"⟩, ⟨"d2", 11, "active"⟩] 35 2 "d1" w =
          true ∧
        ∀ did, (AuthOutcome.staleWitness w : AuthOutcome) ≠ .okAuth did :=
  ⟨by decide,
   @auth_verify_stale_witness
     ⟨[("n0", ⟨"d1", 100, 400, false⟩)],
       [⟨"d1", 3, "active"⟩, ⟨"d2", 11, "active"⟩], 35, 2⟩
     100 ⟨"d1", 1, "n0", true⟩ ⟨"d1", 100, 400, false⟩ ⟨"d1", 3, "active"⟩
     (by decide) (by decide) (by decide) (by decide) (by decide) (by decide) (by decide)
     (by decide) (by decide) (by decide) (by decide) (by decide)⟩

/-! ## C9: `auth_start` issues nonces without any device check -/

/-- C9 (code divergence): `auth_start` performs no device lookup — with
an **empty** device table (so no device exists, let alone an ACTIVE
one) and the well-formed id "ghost", it still succeeds: it returns a
nonce with expiry `now + 300` and stores that nonce bound to "ghost",
unused.  The spec requires `start(device_id)` to fail unless the device
exists with status ACTIVE, and the repository's own end-to-end test
expects auth start on a revoked device to fail with 403. -/
theorem auth_start_no_device_check :
    (auth_start ⟨[], [], 209, 4⟩ 1000 "ghost" "n0").2 = .ok ("n0", 1300) ∧
      lookupNonce (auth_start ⟨[], [], 209, 4⟩ 1000 "ghost" "n0").1.nonces "n0" =
        some ⟨"ghost", 1000, 1300, false⟩ ∧
      (⟨[], [], 209, 4⟩ : GatewayState).devices = [] := by decide

/-! ## src/accum/hash_to_prime.py

SHA-256 is a Python-stdlib primitive external to the repository; the
embedding is parametrized by an arbitrary digest function
`sha : List Nat → List Nat` over byte lists (bytes as naturals), and
every theorem below holds for every such function.  The unbounded
`while not _mr_is_probable_prime(x): x += 2` loop of
`hash_to_prime_coprime_lambda` is modelled with an explicit fuel
argument (`innerFuel`): when the Python loop terminates, its behaviour
agrees with the model at any sufficient fuel, and fuel exhaustion is a
distinguished error that never occurs on a successful run.  Bounded
loops carry their own iteration counts from the source
(`max_attempts`, `mr_rounds`), and the auxiliary arithmetic
(`pow(a, d, n)`, `int.bit_length`, the factor-two split) is written
with structural fuel so that every function evaluates by kernel
reduction. -/

/-- `int.from_bytes(bs, "big")`. -/
def bytesToNat (bs : List Nat) : Nat :=
  bs.foldl (fun acc b => acc * 256 + b) 0

/-- `n.to_bytes(len, "big")` (the code only calls it with `n` that
fits). -/
def natToBytes (n : Nat) : Nat → List Nat
  | 0 => []
  | len + 1 => natToBytes (n / 256) len ++ [n % 256]

/-- Fuel-driven core of `int.bit_length()`. -/
def bitLenAux : Nat → Nat → Nat
  | 0, _ => 0
  | f + 1, n => if n = 0 then 0 else bitLenAux f (n / 2) + 1

/-- `n.bit_length()`. -/
def bitLength (n : Nat) : Nat := bitLenAux n n

/-- Fuel-driven binary exponentiation: `pow(b, e, m)` for `m > 0`. -/
def powmodAux (m : Nat) : Nat → Nat → Nat → Nat
  | 0, _, _ => 1 % m
  | f + 1, b, e =>
      if e = 0 then 1 % m
      else
        let r := powmodAux m f (b * b % m) (e / 2)
        if e % 2 = 1 then r * b % m else r

/-- `pow(b, e, m)` for `m > 0`. -/
def powmod (b e m : Nat) : Nat := powmodAux m e b e

/-- The `while d % 2 == 0: d //= 2; s += 1` loop of
`_mr_is_probable_prime` (reached only with `d > 0`). -/
def splitTwosAux : Nat → Nat → Nat × Nat
  | 0, d => (d, 0)
  | f + 1, d =>
      if d % 2 = 0 then
        let r := splitTwosAux f (d / 2)
        (r.1, r.2 + 1)
      else (d, 0)

/-- Splits `d` as `d' · 2^s` with `d'` odd; returns `(d', s)`. -/
def splitTwos (d : Nat) : Nat × Nat := splitTwosAux d d

/-- The `for p in small` trial-division prefix of
`_mr_is_probable_prime`: `some b` when it decides, `none` otherwise. -/
def trialSmall (n : Nat) : List Nat → Option Bool
  | [] => none
  | p :: rest =>
      if n = p then some true
      else if n % p = 0 then some false
      else trialSmall n rest

/-- The inner `for _ in range(s - 1)` squaring loop; `true` iff it hits
`n - 1` (the `break` of the source, which passes the round). -/
def mrSquareLoop (n : Nat) : Nat → Nat → Bool
  | _, 0 => false
  | x, k + 1 =>
      let x2 := x * x % n
      if x2 = n - 1 then true else mrSquareLoop n x2 k

/-- One Miller-Rabin round of `_mr_is_probable_prime` with the
deterministic base `2 + SHA-256(seed ‖ i) mod (n - 3)`. -/
def mrRound (sha : List Nat → List Nat) (n d s : Nat) (seed : List Nat) (i : Nat) : Bool :=
  let h := sha (seed ++ natToBytes i 4)
  let a := 2 + bytesToNat h % (n - 3)
  let x := powmod a d n
  if x = 1 ∨ x = n - 1 then true else mrSquareLoop n x (s - 1)

/-- The `for i in range(rounds)` loop: `false` at the first failing
round. -/
def mrLoop (sha : List Nat → List Nat) (n d s : Nat) (seed : List Nat) :
    Nat → Nat → Bool
  | 0, _ => true
  | r + 1, i => if mrRound sha n d s seed i then mrLoop sha n d s seed r (i + 1) else false

/-- `_mr_is_probable_prime` from `hash_to_prime.py` (lines 13-40). -/
def mrIsProbablePrime (sha : List Nat → List Nat) (n : Nat) (rounds : Nat) : Bool :=
  if n < 2 then false
  else
    match trialSmall n [2, 3, 5, 7, 11, 13, 17, 19, 23, 29] with
    | some b => b
    | none =>
      let ds := splitTwos (n - 1)
      let seed := natToBytes n ((bitLength n + 7) / 8)
      mrLoop sha n ds.1 ds.2 seed rounds 0

/-- The starting candidate of `hash_to_prime`: the SHA-256 digest as a
big-endian integer, with the top bit forced when below `min_bits` and
forced odd. -/
def h2pStart (sha : List Nat → List Nat) (pubkey_bytes : List Nat) (min_bits : Nat) : Nat :=
  let base := bytesToNat (sha pubkey_bytes)
  let base1 := if bitLength base < min_bits then base ||| 2 ^ (min_bits - 1) else base
  if base1 % 2 = 0 then base1 + 1 else base1

/-- The `for _ in range(max_attempts)` candidate scan of
`hash_to_prime`. -/
def findPrimeLoop (isP : Nat → Bool) : Nat → Nat → PyResult Nat
  | 0, _ => .error (.valueError "Could not find prime within max_attempts")
  | f + 1, cand => if isP cand then .ok cand else findPrimeLoop isP f (cand + 2)

/-- `hash_to_prime` from `hash_to_prime.py` (lines 43-89).  (The
`isinstance` check has no counterpart: the model is typed.) -/
def hash_to_prime (sha : List Nat → List Nat) (pubkey_bytes : List Nat)
    (min_bits max_attempts mr_rounds : Nat) : PyResult Nat :=
  if pubkey_bytes = [] then .error (.valueError "pubkey_bytes cannot be empty")
  else if max_attempts = 0 then .error (.valueError "max_attempts must be positive")
  else if min_bits < 64 then .error (.valueError "min_bits should be >= 64")
  else
    findPrimeLoop (fun c => mrIsProbablePrime sha c mr_rounds) max_attempts
      (h2pStart sha pubkey_bytes min_bits)

/-- The unbounded `x += 2; while not prime(x): x += 2` step of
`hash_to_prime_coprime_lambda`, with fuel: first probable prime in
`x, x+2, …` within `fuel + 1` candidates. -/
def nextMrPrime (isP : Nat → Bool) : Nat → Nat → Option Nat
  | 0, x => if isP x then some x else none
  | f + 1, x => if isP x then some x else nextMrPrime isP f (x + 2)

/-- The `while tries < max_attempts and gcd(x, λ) != 1` loop of
`hash_to_prime_coprime_lambda`; `none` only on inner-fuel
exhaustion. -/
def coprimeLoop (isP : Nat → Bool) (lam innerFuel : Nat) : Nat → Nat → Option Nat
  | 0, x => some x
  | t + 1, x =>
      if Nat.gcd x lam ≠ 1 then
        match nextMrPrime isP innerFuel (x + 2) with
        | some y => coprimeLoop isP lam innerFuel t y
        | none => none
      else some x

/-- `hash_to_prime_coprime_lambda` from `hash_to_prime.py`
(lines 92-123). -/
def hash_to_prime_coprime_lambda (sha : List Nat → List Nat) (innerFuel : Nat)
    (pubkey_bytes : List Nat) (lambda_n min_bits max_attempts mr_rounds : Nat) :
    PyResult Nat :=
  if lambda_n = 0 then .error (.valueError "lambda_n must be a positive integer")
  else
    match hash_to_prime sha pubkey_bytes min_bits max_attempts mr_rounds with
    | .error e => .error e
    | .ok x =>
      match coprimeLoop (fun c => mrIsProbablePrime sha c mr_rounds) lambda_n innerFuel
          max_attempts x with
      | none => .error (.valueError "modelled fuel for the unbounded inner prime search exhausted")
      | some y =>
        if Nat.gcd y lambda_n ≠ 1 then
          .error (.valueError "Failed to find prime coprime to lambda(N) within max_attempts")
        else .ok y

/-! ## C3: the candidate scan returns the first suitable prime -/

/-- The candidate scan of `hash_to_prime` returns the first member of
`c, c+2, c+4, …` accepted by the primality test. -/
theorem findPrimeLoop_spec (isP : Nat → Bool) :
    ∀ (f c r : Nat), findPrimeLoop isP f c = .ok r →
      ∃ j, r = c + 2 * j ∧ isP r = true ∧ ∀ i < j, isP (c + 2 * i) = false := by
  intro f
  induction f with
  | zero =>
      intro c r h
      simp [findPrimeLoop] at h
  | succ f ih =>
      intro c r h
      rw [findPrimeLoop] at h
      by_cases hp : isP c = true
      · rw [if_pos hp] at h
        obtain rfl : c = r := by simpa using h
        exact ⟨0, by omega, hp, fun i hi => absurd hi (Nat.not_lt_zero i)⟩
      · rw [if_neg hp] at h
        obtain ⟨j, hj, hpr, hall⟩ := ih (c + 2) r h
        refine ⟨j + 1, by omega, hpr, ?_⟩
        intro i hi
        rcases Nat.eq_zero_or_pos i with rfl | h0
        · simpa using Bool.not_eq_true _ ▸ (Bool.eq_false_iff.mpr (fun hc => hp hc))
        · obtain ⟨i2, rfl⟩ : ∃ i2, i = i2 + 1 := ⟨i - 1, by omega⟩
          have heq : c + 2 * (i2 + 1) = (c + 2) + 2 * i2 := by omega
          rw [heq]
          exact hall i2 (by omega)

/-- The inner prime search of the coprimality loop returns the first
member of `x, x+2, …` accepted by the primality test. -/
theorem nextMrPrime_spec (isP : Nat → Bool) :
    ∀ (f x y : Nat), nextMrPrime isP f x = some y →
      ∃ j, y = x + 2 * j ∧ isP y = true ∧ ∀ i < j, isP (x + 2 * i) = false := by
  intro f
  induction f with
  | zero =>
      intro x y h
      rw [nextMrPrime] at h
      by_cases hp : isP x = true
      · rw [if_pos hp] at h
        obtain rfl : x = y := by simpa using h
        exact ⟨0, by omega, hp, fun i hi => absurd hi (Nat.not_lt_zero i)⟩
      · rw [if_neg hp] at h
        simp at h
  | succ f ih =>
      intro x y h
      rw [nextMrPrime] at h
      by_cases hp : isP x = true
      · rw [if_pos hp] at h
        obtain rfl : x = y := by simpa using h
        exact ⟨0, by omega, hp, fun i hi => absurd hi (Nat.not_lt_zero i)⟩
      · rw [if_neg hp] at h
        obtain ⟨j, hj, hpr, hall⟩ := ih (x + 2) y h
        refine ⟨j + 1, by omega, hpr, ?_⟩
        intro i hi
        rcases Nat.eq_zero_or_pos i with rfl | h0
        · simpa using Bool.eq_false_iff.mpr (fun hc => hp hc)
        · obtain ⟨i2, rfl⟩ : ∃ i2, i = i2 + 1 := ⟨i - 1, by omega⟩
          have heq : x + 2 * (i2 + 1) = (x + 2) + 2 * i2 := by omega
          rw [heq]
          exact hall i2 (by omega)

/-- Invariant of the coprimality loop: starting from a probable prime
`x = start + 2·jx` below which no candidate is both a probable prime
and coprime to `lam`, a successful exit with `gcd(y, lam) = 1` yields
the first candidate that is both. -/
theorem coprimeLoop_spec (isP : Nat → Bool) (lam F start : Nat) :
    ∀ (t x y jx : Nat), coprimeLoop isP lam F t x = some y →
      x = start + 2 * jx → isP x = true →
      (∀ i < jx, ¬(isP (start + 2 * i) = true ∧ Nat.gcd (start + 2 * i) lam = 1)) →
      Nat.gcd y lam = 1 →
      ∃ jy, y = start + 2 * jy ∧ isP y = true ∧
        ∀ i < jy, ¬(isP (start + 2 * i) = true ∧ Nat.gcd (start + 2 * i) lam = 1) := by
  intro t
  induction t with
  | zero =>
      intro x y jx hcl hx hPx hinv hgcd
      rw [coprimeLoop] at hcl
      obtain rfl : x = y := by simpa using hcl
      exact ⟨jx, hx, hPx, hinv⟩
  | succ t ih =>
      intro x y jx hcl hx hPx hinv hgcd
      rw [coprimeLoop] at hcl
      by_cases hg : Nat.gcd x lam ≠ 1
      · rw [if_pos hg] at hcl
        cases hnp : nextMrPrime isP F (x + 2) with
        | none =>
            rw [hnp] at hcl
            simp at hcl
        | some z =>
            rw [hnp] at hcl
            obtain ⟨j2, hz, hPz, hallz⟩ := nextMrPrime_spec isP F (x + 2) z hnp
            refine ih z y (jx + 1 + j2) hcl (by omega) hPz ?_ hgcd
            intro i hi
            by_cases hi1 : i < jx
            · exact hinv i hi1
            · by_cases hi2 : i = jx
              · subst hi2
                rintro ⟨-, hgcd2⟩
                rw [← hx] at hgcd2
                exact hg hgcd2
              · obtain ⟨i2, rfl⟩ : ∃ i2, i = jx + 1 + i2 := ⟨i - jx - 1, by omega⟩
                rintro ⟨hP, -⟩
                have heq : start + 2 * (jx + 1 + i2) = (x + 2) + 2 * i2 := by omega
                rw [heq, hallz i2 (by omega)] at hP
                exact absurd hP (by decide)
      · rw [if_neg hg] at hcl
        obtain rfl : x = y := by simpa using hcl
        exact ⟨jx, hx, hPx, hinv⟩

/-- A bit length of at least `k + 1` forces `2^k ≤ n`. -/
theorem two_pow_le_of_bitLenAux :
    ∀ (f n k : Nat), n ≤ f → k + 1 ≤ bitLenAux f n → 2 ^ k ≤ n := by
  intro f
  induction f with
  | zero =>
      intro n k hn h
      simp [bitLenAux] at h
  | succ f ih =>
      intro n k hn h
      rw [bitLenAux] at h
      by_cases h0 : n = 0
      · rw [if_pos h0] at h
        omega
      · rw [if_neg h0] at h
        rcases Nat.eq_zero_or_pos k with rfl | hk
        · have : 1 ≤ n := Nat.pos_of_ne_zero h0
          simpa using this
        · obtain ⟨j, rfl⟩ : ∃ j, k = j + 1 := ⟨k - 1, by omega⟩
          have hrec := ih (n / 2) j (by omega) (by omega)
          have h2 : 2 ^ (j + 1) = 2 * 2 ^ j := by ring
          omega

/-- `2^k ≤ n` forces a bit length of at least `k + 1`. -/
theorem bitLenAux_ge_of_two_pow :
    ∀ (f n k : Nat), n ≤ f → 2 ^ k ≤ n → k + 1 ≤ bitLenAux f n := by
  intro f
  induction f with
  | zero =>
      intro n k hn h
      have := Nat.pos_pow_of_pos k (by norm_num : 0 < 2)
      omega
  | succ f ih =>
      intro n k hn h
      have hpos : 0 < 2 ^ k := Nat.pos_pow_of_pos k (by norm_num)
      rw [bitLenAux, if_neg (by omega : ¬n = 0)]
      rcases Nat.eq_zero_or_pos k with rfl | hk
      · omega
      · obtain ⟨j, rfl⟩ : ∃ j, k = j + 1 := ⟨k - 1, by omega⟩
        have h2 : 2 ^ (j + 1) = 2 * 2 ^ j := by ring
        have := ih (n / 2) j (by omega) (by omega)
        omega

/-- The starting candidate of `hash_to_prime` is odd. -/
theorem h2pStart_odd (sha : List Nat → List Nat) (k : List Nat) (mb : Nat) :
    h2pStart sha k mb % 2 = 1 := by
  simp only [h2pStart]
  split <;> split <;> omega

/-- The starting candidate of `hash_to_prime` is at least
`2^(min_bits - 1)`. -/
theorem h2pStart_ge (sha : List Nat → List Nat) (k : List Nat) {mb : Nat}
    (hmb : 1 ≤ mb) : 2 ^ (mb - 1) ≤ h2pStart sha k mb := by
  simp only [h2pStart]
  by_cases hf : bitLength (bytesToNat (sha k)) < mb
  · rw [if_pos hf]
    have hb : 2 ^ (mb - 1) ≤ bytesToNat (sha k) ||| 2 ^ (mb - 1) := by
      refine Nat.testBit_implies_ge ?_
      rw [Nat.testBit_lor]
      simp [Nat.testBit_two_pow_self]
    split <;> omega
  · rw [if_neg hf]
    push_neg at hf
    have hb : 2 ^ (mb - 1) ≤ bytesToNat (sha k) := by
      refine two_pow_le_of_bitLenAux (bytesToNat (sha k)) _ _ le_rfl ?_
      unfold bitLength at hf
      omega
    split <;> omega

/-- C3: for every digest function, every non-empty key and every
positive `λ`, whenever `hash_to_prime_coprime_lambda` with the default
parameters (`min_bits = 256`, `max_attempts = 200000`, `mr_rounds = 64`)
returns a value, that value is the first candidate of the odd ascending
sequence `h, h+2, h+4, …` (`h = h2pStart`, derived from the digest with
the top bit forced and forced odd) that both passes the 64-round
deterministic Miller-Rabin test and is coprime to `λ`; consequently it
is odd, at least `2^255` (bit length ≥ 256), passes the test, and has
`gcd` 1 with `λ`.  Determinism over a fixed key and parameters is
immediate: the embedding is a pure function. -/
theorem hash_to_prime_coprime_lambda_spec
    (sha : List Nat → List Nat) (innerFuel : Nat) (k : List Nat) (lam res : Nat)
    (hk : k ≠ []) (hlam : 0 < lam)
    (hok : hash_to_prime_coprime_lambda sha innerFuel k lam 256 200000 64 = .ok res) :
    res % 2 = 1 ∧ 2 ^ 255 ≤ res ∧ 256 ≤ bitLength res ∧
      mrIsProbablePrime sha res 64 = true ∧ Nat.gcd res lam = 1 ∧
      ∃ j, res = h2pStart sha k 256 + 2 * j ∧
        ∀ i < j, ¬(mrIsProbablePrime sha (h2pStart sha k 256 + 2 * i) 64 = true ∧
          Nat.gcd (h2pStart sha k 256 + 2 * i) lam = 1) := by
  unfold hash_to_prime_coprime_lambda at hok
  rw [if_neg (by omega)] at hok
  cases hhp : hash_to_prime sha k 256 200000 64 with
  | error e =>
      rw [hhp] at hok
      exact absurd hok (by simp)
  | ok x =>
      rw [hhp] at hok
      dsimp only at hok
      cases hcl : coprimeLoop (fun c => mrIsProbablePrime sha c 64) lam innerFuel 200000 x with
      | none =>
          rw [hcl] at hok
          exact absurd hok (by simp)
      | some y =>
          rw [hcl] at hok
          dsimp only at hok
          by_cases hg : Nat.gcd y lam ≠ 1
          · rw [if_pos hg] at hok
            exact absurd hok (by simp)
          · rw [if_neg hg] at hok
            push_neg at hg
            obtain rfl : y = res := by simpa using hok
            have hfl : findPrimeLoop (fun c => mrIsProbablePrime sha c 64) 200000
                (h2pStart sha k 256) = .ok x := by
              unfold hash_to_prime at hhp
              rw [if_neg hk, if_neg (by decide), if_neg (by decide)] at hhp
              exact hhp
            obtain ⟨jx, hx, hPx, hallx⟩ :=
              findPrimeLoop_spec (fun c => mrIsProbablePrime sha c 64) 200000
                (h2pStart sha k 256) x hfl
            obtain ⟨jy, hy, hPy, hall⟩ :=
              coprimeLoop_spec (fun c => mrIsProbablePrime sha c 64) lam innerFuel
                (h2pStart sha k 256) 200000 x y jx hcl hx hPx
                (fun i hi => fun hc => by
                  dsimp only at hc
                  rw [hallx i hi] at hc
                  exact absurd hc.1 (by decide)) hg
            have hodd := h2pStart_odd sha k 256
            have hge : 2 ^ 255 ≤ h2pStart sha k 256 := @h2pStart_ge sha k 256 (by omega)
            have hge2 : 2 ^ 255 ≤ y := by
              rw [hy]
              omega
            refine ⟨by rw [hy]; omega, hge2, ?_, hPy, hg, jy, hy, hall⟩
            exact bitLenAux_ge_of_two_pow y y 255 le_rfl hge2

/-- The concrete 256-bit prime `2^255 + 95` used in the C3 witness. -/
def c3Prime : Nat :=
  57896044618658097711785492504343953926634992332820282019728792003956564820063

/-- A concrete digest function for the C3 witness: every input hashes
to the 32-byte big-endian encoding of `c3Prime`. -/
def c3Sha : List Nat → List Nat := fun _ => natToBytes c3Prime 32

set_option maxRecDepth 100000 in
/-- Witness for C3: with the digest function `c3Sha`, key `[1]` and
`λ = 1`, the search returns `c3Prime` (= `2^255 + 95`, which is prime
and is itself the first candidate), and all the claimed properties
hold at it. -/
theorem hash_to_prime_coprime_lambda_spec_witness :
    ([1] : List Nat) ≠ [] ∧ 0 < 1 ∧
      hash_to_prime_coprime_lambda c3Sha 0 [1] 1 256 200000 64 = .ok c3Prime ∧
      (c3Prime % 2 = 1 ∧ 2 ^ 255 ≤ c3Prime ∧ 256 ≤ bitLength c3Prime ∧
        mrIsProbablePrime c3Sha c3Prime 64 = true ∧ Nat.gcd c3Prime 1 = 1 ∧
        ∃ j, c3Prime = h2pStart c3Sha [1] 256 + 2 * j ∧
          ∀ i < j, ¬(mrIsProbablePrime c3Sha (h2pStart c3Sha [1] 256 + 2 * i) 64 = true ∧
            Nat.gcd (h2pStart c3Sha [1] 256 + 2 * i) 1 = 1)) :=
  ⟨by decide, by decide, by decide,
   hash_to_prime_coprime_lambda_spec c3Sha 0 [1] 1 c3Prime (by decide) (by decide)
     (by decide)⟩
